import Mathlib

/-!
Verification of the checklist manager (src/checklist.cpp).

The file is modelled as `Option String`: `none` stands for a file that cannot
be opened for reading, `some s` for a readable file with contents `s`.
Stream extraction (`operator>>` for `int`), `istream::ignore()` and
`std::getline` are embedded as functions on `List Char`; the read loop of
`FileHandler::loadTasks` is embedded with explicit fuel (one unit per loop
iteration, each iteration consumes at least one character, so the length of
the input plus one is always enough), which keeps every definition
executable by the kernel.
-/

namespace Checklist

/-- Task record: `id`, `description`, `completed` (checklist.cpp, class Task).
The C++ constructor sets `completed = false`; `toggleComplete` flips it. -/
structure Task where
  id : Int
  description : String
  completed : Bool
deriving DecidableEq

/-- `Task::toggleComplete` (line 26): `completed = !completed`. -/
def Task.toggleComplete (t : Task) : Task :=
  { t with completed := !t.completed }

/-- Whitespace as classified by `std::isspace` in the "C" locale, which is
what `operator>>` skips: space, \t, \n, \v, \f, \r. -/
def isWs (c : Char) : Bool :=
  c.toNat == 32 || c.toNat == 9 || c.toNat == 10 ||
  c.toNat == 11 || c.toNat == 12 || c.toNat == 13

/-- Decimal digit characters, as classified during integer extraction. -/
def isDigitChar (c : Char) : Bool :=
  48 ≤ c.toNat && c.toNat ≤ 57

/-- Consume a maximal (possibly empty) run of digits, accumulating their
value in base 10; returns the value and the rest of the input. -/
def readDigits : List Char → Nat → Nat × List Char
  | c :: cs, acc =>
    if isDigitChar c then readDigits cs (acc * 10 + (c.toNat - 48))
    else (acc, c :: cs)
  | [], acc => (acc, [])

/-- An unsigned decimal numeral: fails unless the first character is a digit
(`operator>>` fails when no digits can be read). -/
def parseNat : List Char → Option (Nat × List Char)
  | c :: cs => if isDigitChar c then some (readDigits (c :: cs) 0) else none
  | [] => none

/-- `file >> (int)`: skip whitespace, then an optional single sign followed
by at least one digit; `none` is the failed stream state. -/
def parseInt (l : List Char) : Option (Int × List Char) :=
  match l.dropWhile isWs with
  | [] => none
  | c :: cs =>
    if c == '-' then (parseNat cs).map (fun p => (-(p.1 : Int), p.2))
    else if c == '+' then (parseNat cs).map (fun p => ((p.1 : Int), p.2))
    else (parseNat (c :: cs)).map (fun p => ((p.1 : Int), p.2))

/-- `std::getline(file, desc)`: everything up to the next newline (the
newline itself is consumed and discarded); at end of input it yields the
empty string, as the C++ call leaves `desc` empty when it fails at EOF. -/
def getLine (l : List Char) : String × List Char :=
  (String.mk (l.takeWhile (fun c => !(c == '\n'))),
   (l.dropWhile (fun c => !(c == '\n'))).drop 1)

/-- The `while (file >> id >> completed)` loop of `FileHandler::loadTasks`
(lines 57-65): read two integers, `ignore()` one character, `getline` the
description, repeat; stop as soon as an integer extraction fails. The first
argument is fuel, one unit per iteration. -/
def loadLoopF : Nat → List Char → List Task
  | 0, _ => []
  | fuel + 1, l =>
    match parseInt l with
    | none => []
    | some (i, r1) =>
      match parseInt r1 with
      | none => []
      | some (fl, r2) =>
        let p := getLine (r2.drop 1)
        { id := i, description := p.1, completed := fl != 0 } :: loadLoopF fuel p.2

/-- `FileHandler::loadTasks` (lines 46-68): an unopenable file yields the
empty list; otherwise run the read loop on the contents. -/
def FileHandler.loadTasks (file : Option String) : List Task :=
  match file with
  | none => []
  | some s => loadLoopF (s.data.length + 1) s.data

/-- Decimal digits of a natural number, most significant first, as
`operator<<` prints them. -/
def natDigits (n : Nat) : List Char :=
  if h : n < 10 then [Char.ofNat (48 + n)]
  else natDigits (n / 10) ++ [Char.ofNat (48 + n % 10)]
decreasing_by exact Nat.div_lt_self (by omega) (by omega)

/-- Decimal rendering of an `int`, as `file << id` prints it. -/
def intChars (n : Int) : List Char :=
  if n < 0 then '-' :: natDigits (-n).toNat else natDigits n.toNat

/-- One line written by `FileHandler::saveTasks` (lines 77-81):
`<id> <0|1> <description>\n` (`operator<<` prints a `bool` as `1`/`0`). -/
def serializeTask (t : Task) : List Char :=
  intChars t.id ++ ' ' :: (if t.completed then '1' else '0') :: ' ' :: t.description.data ++ ['\n']

/-- The full file contents `FileHandler::saveTasks` writes. -/
def saveString (ts : List Task) : String :=
  String.mk (ts.map serializeTask).flatten

/-- `FileHandler::saveTasks` (lines 70-82): `canOpen` says whether the target
can be opened for writing; when it cannot, the function throws
`std::runtime_error("Unable to open file for writing")`, embedded as
`Except.error`; otherwise it truncates and writes every task. -/
def FileHandler.saveTasks (canOpen : Bool) (ts : List Task) : Except String String :=
  if canOpen then Except.ok (saveString ts)
  else Except.error "Unable to open file for writing"

/-- In-memory store: the task sequence and the id counter
(class ChecklistManager, lines 86-168). -/
structure ChecklistManager where
  tasks : List Task
  nextId : Int
deriving DecidableEq

/-- `ChecklistManager::getNextId` (lines 92-98): `maxId` starts at 0, is
folded with `std::max` over every task id, and the result is `maxId + 1`. -/
def getNextId (tasks : List Task) : Int :=
  tasks.foldl (fun maxId t => max maxId t.id) 0 + 1

/-- The `ChecklistManager` constructor (lines 101-105): load the file, then
derive `nextId` from the loaded tasks. -/
def ChecklistManager.load (file : Option String) : ChecklistManager :=
  let ts := FileHandler.loadTasks file
  { tasks := ts, nextId := getNextId ts }

/-- `ChecklistManager::addTask` (lines 121-124): append a task with the
current `nextId`, completed `false`, increment `nextId`, print success. -/
def ChecklistManager.addTask (m : ChecklistManager) (description : String) :
    ChecklistManager × String :=
  ({ tasks := m.tasks ++ [{ id := m.nextId, description := description, completed := false }],
     nextId := m.nextId + 1 },
   "Task added successfully!")

/-- `ChecklistManager::removeTask` (lines 126-138): `std::remove_if` + `erase`
drops every task with the given id and keeps the rest in order; when nothing
matched the sequence is untouched and "Task not found!" is printed. -/
def ChecklistManager.removeTask (m : ChecklistManager) (i : Int) :
    ChecklistManager × String :=
  if m.tasks.any (fun t => t.id == i) then
    ({ m with tasks := m.tasks.filter (fun t => !(t.id == i)) },
     "Task removed successfully!")
  else (m, "Task not found!")

/-- The `std::find_if` + `toggleComplete` of `ChecklistManager::toggleTask`:
flip the completion flag of the first task with the given id. -/
def toggleFirst (i : Int) : List Task → List Task
  | [] => []
  | t :: ts =>
    if t.id == i then t.toggleComplete :: ts
    else t :: toggleFirst i ts

/-- `ChecklistManager::toggleTask` (lines 140-152). -/
def ChecklistManager.toggleTask (m : ChecklistManager) (i : Int) :
    ChecklistManager × String :=
  if m.tasks.any (fun t => t.id == i) then
    ({ m with tasks := toggleFirst i m.tasks }, "Task status toggled!")
  else (m, "Task not found!")

/-- The destructor `~ChecklistManager` (lines 113-119): try to save; a throw
from `saveTasks` is caught there and reported to `std::cerr`. The result is
(contents written to the file, if any; message printed to the error stream,
if any). -/
def ChecklistManager.shutdownFlush (m : ChecklistManager) (canOpen : Bool) :
    Option String × Option String :=
  match FileHandler.saveTasks canOpen m.tasks with
  | Except.ok content => (some content, none)
  | Except.error e => (none, some ("Error saving tasks: " ++ e))

/-- `addTask` called once per description, in order (the shell calls it once
per choice 1). -/
def addAll (m : ChecklistManager) (ds : List String) : ChecklistManager :=
  ds.foldl (fun m d => (m.addTask d).1) m

/-- The tasks `addTask` is expected to create from consecutive ids starting
at `start`: fresh tasks are never completed. -/
def tasksFrom (start : Int) : List String → List Task
  | [] => []
  | d :: ds => { id := start, description := d, completed := false } :: tasksFrom (start + 1) ds

/-- One dispatch of the menu loop `Menu::run` (lines 189-229): choices 1-4,
or any other (invalid) choice; choice 5 ends the command list. -/
inductive Cmd where
  | add (description : String)
  | remove (i : Int)
  | toggle (i : Int)
  | list
  | invalid (choice : Int)
deriving DecidableEq

/-- The menu loop: dispatch each command to the store; `list` and invalid
choices do not change the store. -/
def runCmds (m : ChecklistManager) : List Cmd → ChecklistManager
  | [] => m
  | Cmd.add d :: cs => runCmds (m.addTask d).1 cs
  | Cmd.remove i :: cs => runCmds (m.removeTask i).1 cs
  | Cmd.toggle i :: cs => runCmds (m.toggleTask i).1 cs
  | Cmd.list :: cs => runCmds m cs
  | Cmd.invalid _ :: cs => runCmds m cs

/-- `main` (lines 232-242): build the store from the file, run the menu,
then destroy the store, which flushes via `shutdownFlush`. The `catch` in
`main` turns an exception escaping the menu phase into exit code 1; in the
embedded fragment no store operation throws (the destructor catches the only
throwing call), so the menu phase is the always-successful `Except.ok`.
Result: (exit code, message printed to the error stream, if any). -/
def mainModel (file : Option String) (canOpen : Bool) (cmds : List Cmd) :
    Nat × Option String :=
  match (Except.ok (runCmds (ChecklistManager.load file) cmds) :
      Except String ChecklistManager) with
  | Except.error e => (1, some ("Error: " ++ e))
  | Except.ok m => (0, (m.shutdownFlush canOpen).2)

/-! Character-level facts. -/

lemma isWs_eq_false_of_digit (c : Char) (h : isDigitChar c = true) : isWs c = false := by
  simp only [isDigitChar, Bool.and_eq_true, decide_eq_true_eq] at h
  simp only [isWs, Bool.or_eq_false_iff, beq_eq_false_iff_ne, ne_eq]
  omega

lemma beq_minus_eq_false_of_digit (c : Char) (h : isDigitChar c = true) :
    (c == '-') = false := by
  rw [beq_eq_false_iff_ne]
  rintro rfl
  exact absurd h (by decide)

lemma beq_plus_eq_false_of_digit (c : Char) (h : isDigitChar c = true) :
    (c == '+') = false := by
  rw [beq_eq_false_iff_ne]
  rintro rfl
  exact absurd h (by decide)

lemma digitChar_toNat (d : Nat) (h : d < 10) : (Char.ofNat (48 + d)).toNat = 48 + d := by
  interval_cases d <;> decide

lemma digitChar_isDigit (d : Nat) (h : d < 10) : isDigitChar (Char.ofNat (48 + d)) = true := by
  interval_cases d <;> decide

/-! Decimal digits round-trip: the digits `operator<<` prints are exactly
what `operator>>` reads back. -/

lemma natDigits_cons (n : Nat) : ∃ c cs, natDigits n = c :: cs ∧ isDigitChar c = true := by
  induction n using Nat.strong_induction_on with
  | _ n ih =>
    rw [natDigits]
    split
    · rename_i h
      exact ⟨_, _, rfl, digitChar_isDigit n h⟩
    · rename_i h
      obtain ⟨c, cs, heq, hc⟩ := ih (n / 10) (Nat.div_lt_self (by omega) (by omega))
      exact ⟨c, cs ++ [Char.ofNat (48 + n % 10)], by rw [heq]; rfl, hc⟩

lemma readDigits_natDigits (n : Nat) : ∀ (rest : List Char) (acc : Nat),
    readDigits (natDigits n ++ rest) acc =
      readDigits rest (acc * 10 ^ (natDigits n).length + n) := by
  induction n using Nat.strong_induction_on with
  | _ n ih =>
    intro rest acc
    rw [natDigits]
    split
    · rename_i h
      have hd := digitChar_isDigit n h
      have ht := digitChar_toNat n h
      simp only [List.singleton_append, readDigits, hd, if_true, ht,
        List.length_singleton, pow_one]
      congr 1
      omega
    · rename_i h
      have hlt : n / 10 < n := Nat.div_lt_self (by omega) (by omega)
      have hd := digitChar_isDigit (n % 10) (by omega)
      have ht := digitChar_toNat (n % 10) (by omega)
      rw [List.append_assoc, ih (n / 10) hlt, List.singleton_append]
      simp only [readDigits, hd, if_true, ht, List.length_append,
        List.length_singleton]
      congr 1
      have h48 : 48 + n % 10 - 48 = n % 10 := by omega
      rw [h48, pow_succ]
      calc (acc * 10 ^ (natDigits (n / 10)).length + n / 10) * 10 + n % 10
          = acc * (10 ^ (natDigits (n / 10)).length * 10) + (n / 10 * 10 + n % 10) := by ring
        _ = acc * (10 ^ (natDigits (n / 10)).length * 10) + n := by omega

lemma parseNat_natDigits_space (n : Nat) (rest : List Char) :
    parseNat (natDigits n ++ ' ' :: rest) = some (n, ' ' :: rest) := by
  obtain ⟨c, cs, heq, hc⟩ := natDigits_cons n
  rw [heq, List.cons_append]
  simp only [parseNat, hc, if_true]
  rw [← List.cons_append, ← heq, readDigits_natDigits]
  have hsp : isDigitChar ' ' = false := by decide
  simp [readDigits, hsp]

lemma parseInt_intChars (i : Int) (rest : List Char) :
    parseInt (intChars i ++ ' ' :: rest) = some (i, ' ' :: rest) := by
  unfold intChars
  split
  · rename_i h
    have hw : isWs '-' = false := by decide
    simp only [List.cons_append, parseInt, List.dropWhile_cons, hw,
      Bool.false_eq_true, if_false]
    rw [parseNat_natDigits_space]
    simp only [Option.map_some']
    have hnn : (0 : Int) ≤ -i := by omega
    rw [Int.toNat_of_nonneg hnn]
    norm_num
  · rename_i h
    obtain ⟨c, cs, heq, hc⟩ := natDigits_cons i.toNat
    rw [heq, List.cons_append]
    have hw := isWs_eq_false_of_digit c hc
    have hm := beq_minus_eq_false_of_digit c hc
    have hp := beq_plus_eq_false_of_digit c hc
    simp only [parseInt, List.dropWhile_cons, hw, Bool.false_eq_true, if_false,
      hm, hp]
    rw [← List.cons_append, ← heq, parseNat_natDigits_space]
    simp only [Option.map_some']
    rw [Int.toNat_of_nonneg (by omega)]

lemma parseInt_flag (b : Bool) (rest : List Char) :
    parseInt (' ' :: (if b then '1' else '0') :: ' ' :: rest) =
      some ((if b then 1 else 0 : Int), ' ' :: rest) := by
  cases b <;> rfl

/-! `getline` on a line with no embedded newline. -/

lemma takeWhile_append_of_all {α : Type} (p : α → Bool) (l1 l2 : List α)
    (h : ∀ a ∈ l1, p a = true) :
    (l1 ++ l2).takeWhile p = l1 ++ l2.takeWhile p := by
  induction l1 with
  | nil => simp
  | cons a l ih =>
    rw [List.cons_append, List.takeWhile_cons, h a (by simp)]
    simp only [if_true, List.cons_append, ih (fun x hx => h x (by simp [hx]))]

lemma dropWhile_append_of_all {α : Type} (p : α → Bool) (l1 l2 : List α)
    (h : ∀ a ∈ l1, p a = true) :
    (l1 ++ l2).dropWhile p = l2.dropWhile p := by
  induction l1 with
  | nil => simp
  | cons a l ih =>
    rw [List.cons_append, List.dropWhile_cons, h a (by simp)]
    simp only [if_true, ih (fun x hx => h x (by simp [hx]))]

lemma getLine_newline (d : List Char) (hd : ∀ c ∈ d, ¬ c = '\n') (rest : List Char) :
    getLine (d ++ '\n' :: rest) = (String.mk d, rest) := by
  unfold getLine
  have hall : ∀ c ∈ d, (!(c == '\n')) = true := by
    intro c hc
    simp [beq_eq_false_iff_ne.mpr (hd c hc)]
  rw [takeWhile_append_of_all _ _ _ hall, dropWhile_append_of_all _ _ _ hall]
  simp [List.takeWhile_cons, List.dropWhile_cons]

/-! Length bounds: every successful integer extraction consumes at least one
character, which is what bounds the number of loop iterations. -/

lemma dropWhile_length_le {α : Type} (p : α → Bool) (l : List α) :
    (l.dropWhile p).length ≤ l.length := by
  induction l with
  | nil => simp
  | cons a l ih =>
    rw [List.dropWhile_cons]
    split
    · exact Nat.le_succ_of_le ih
    · simp

lemma readDigits_length_le : ∀ (l : List Char) (acc : Nat),
    (readDigits l acc).2.length ≤ l.length := by
  intro l
  induction l with
  | nil => intro acc; simp [readDigits]
  | cons c cs ih =>
    intro acc
    rw [readDigits]
    split
    · exact Nat.le_succ_of_le (ih _)
    · simp

lemma parseNat_length_lt (l : List Char) (p : Nat × List Char)
    (h : parseNat l = some p) : p.2.length < l.length := by
  cases l with
  | nil => simp [parseNat] at h
  | cons c cs =>
    rw [parseNat] at h
    split at h
    · rename_i hc
      have hrw : readDigits (c :: cs) 0 = readDigits cs (0 * 10 + (c.toNat - 48)) := by
        rw [readDigits, if_pos hc]
      obtain rfl : readDigits (c :: cs) 0 = p := by injection h
      rw [hrw]
      have := readDigits_length_le cs (0 * 10 + (c.toNat - 48))
      simp only [List.length_cons]
      omega
    · exact absurd h (by simp)

lemma parseInt_length_lt (l : List Char) (q : Int × List Char)
    (h : parseInt l = some q) : q.2.length < l.length := by
  have hd : (l.dropWhile isWs).length ≤ l.length := dropWhile_length_le _ _
  rw [parseInt] at h
  split at h
  · exact absurd h (by simp)
  · rename_i c cs heq
    have hlen : cs.length + 1 ≤ l.length := by
      rw [heq] at hd
      simpa using hd
    split at h
    · obtain ⟨p, hp, hq⟩ := Option.map_eq_some'.mp h
      have h1 := parseNat_length_lt cs p hp
      have h2 : q.2 = p.2 := by rw [← hq]
      rw [h2]
      omega
    · split at h
      · obtain ⟨p, hp, hq⟩ := Option.map_eq_some'.mp h
        have h1 := parseNat_length_lt cs p hp
        have h2 : q.2 = p.2 := by rw [← hq]
        rw [h2]
        omega
      · obtain ⟨p, hp, hq⟩ := Option.map_eq_some'.mp h
        have h1 := parseNat_length_lt (c :: cs) p hp
        have h2 : q.2 = p.2 := by rw [← hq]
        rw [h2]
        simp only [List.length_cons] at h1
        omega

lemma getLine_snd_length_le (l : List Char) : (getLine l).2.length ≤ l.length := by
  unfold getLine
  have h1 := dropWhile_length_le (fun c => !(c == '\n')) l
  simp only [List.length_drop]
  omega

/-! The load loop does not depend on the fuel once the fuel exceeds the
length of the input. -/

lemma loadLoopF_congr : ∀ (f g : Nat) (l : List Char), l.length < f → l.length < g →
    loadLoopF f l = loadLoopF g l := by
  intro f
  induction f with
  | zero => intro g l hf _; omega
  | succ f ih =>
    intro g l hf hg
    cases g with
    | zero => omega
    | succ g =>
      cases h1 : parseInt l with
      | none => simp only [loadLoopF, h1]
      | some q =>
        obtain ⟨i, r1⟩ := q
        have hr1 : r1.length < l.length := by simpa using parseInt_length_lt l (i, r1) h1
        cases h2 : parseInt r1 with
        | none => simp only [loadLoopF, h1, h2]
        | some q2 =>
          obtain ⟨fl, r2⟩ := q2
          have hr2 : r2.length < r1.length := by
            simpa using parseInt_length_lt r1 (fl, r2) h2
          have hr4 := getLine_snd_length_le (r2.drop 1)
          simp only [List.length_drop] at hr4
          simp only [loadLoopF, h1, h2]
          rw [ih g ((getLine (r2.drop 1)).2) (by omega) (by omega)]

/-! Loading a saved sequence: the save format parses back record by record. -/

lemma serializeTask_append (t : Task) (r : List Char) :
    serializeTask t ++ r =
      intChars t.id ++ ' ' :: (if t.completed then '1' else '0') :: ' ' ::
        (t.description.data ++ '\n' :: r) := by
  simp [serializeTask, List.append_assoc]

lemma loadLoopF_saveString : ∀ (ts : List Task),
    (∀ t ∈ ts, ∀ c ∈ t.description.data, ¬ c = '\n') →
    ∀ (r : List Char) (f g : Nat),
    ((ts.map serializeTask).flatten ++ r).length < f → r.length < g →
    loadLoopF f ((ts.map serializeTask).flatten ++ r) = ts ++ loadLoopF g r := by
  intro ts
  induction ts with
  | nil =>
    intro _ r f g hf hg
    simp only [List.map_nil, List.flatten_nil, List.nil_append] at hf ⊢
    exact loadLoopF_congr f g r hf hg
  | cons t ts ih =>
    intro h r f g hf hg
    rw [List.map_cons, List.flatten_cons, List.append_assoc, serializeTask_append] at hf ⊢
    cases f with
    | zero => omega
    | succ f =>
      have h1 := parseInt_intChars t.id
        ((if t.completed then '1' else '0') :: ' ' ::
          (t.description.data ++ '\n' :: ((ts.map serializeTask).flatten ++ r)))
      have h2 := parseInt_flag t.completed
        (t.description.data ++ '\n' :: ((ts.map serializeTask).flatten ++ r))
      have h3 := getLine_newline t.description.data
        (fun c hc => h t (by simp) c hc) ((ts.map serializeTask).flatten ++ r)
      simp only [loadLoopF, h1, h2, List.drop_succ_cons, List.drop_zero, h3]
      have hlen : ((ts.map serializeTask).flatten ++ r).length < f := by
        simp only [List.length_append, List.length_cons] at hf ⊢
        omega
      rw [ih (fun u hu => h u (by simp [hu])) r f g hlen hg]
      obtain ⟨tid, tdesc, tc⟩ := t
      cases tc <;> rfl

/-- Claim C1: saving any sequence of tasks whose descriptions contain no
newline and loading the resulting file back yields an equal sequence (same
ids, completion flags and descriptions, in the same order). -/
theorem claim_C1 (ts : List Task) (h : ∀ t ∈ ts, '\n' ∉ t.description.data) :
    FileHandler.loadTasks (some (saveString ts)) = ts := by
  show loadLoopF ((ts.map serializeTask).flatten.length + 1) (ts.map serializeTask).flatten = ts
  rw [← List.append_nil (ts.map serializeTask).flatten]
  rw [loadLoopF_saveString ts (fun t ht c hc hceq => h t ht (hceq ▸ hc)) [] _ 1
    (by simp) (by simp)]
  rw [show loadLoopF 1 [] = [] from rfl, List.append_nil]

/-- Witness for C1 at the spec's own example sequence. -/
theorem claim_C1_witness :
    (∀ t ∈ [({ id := 1, description := "Buy milk", completed := false } : Task),
            { id := 2, description := "Walk dog", completed := true }],
        '\n' ∉ t.description.data)
    ∧ FileHandler.loadTasks (some (saveString
        [{ id := 1, description := "Buy milk", completed := false },
         { id := 2, description := "Walk dog", completed := true }])) =
      [{ id := 1, description := "Buy milk", completed := false },
       { id := 2, description := "Walk dog", completed := true }] :=
  ⟨by decide, claim_C1 _ (by decide)⟩

/-- Claim C2, amended: the load loop stops silently at the first point where
extraction of an id or flag integer fails; earlier records are kept and
everything from that point on is discarded. (The code stops on failed token
extraction, not on malformed lines: see the counterexample.) -/
theorem claim_C2 (ts : List Task) (junk : List Char)
    (hts : ∀ t ∈ ts, '\n' ∉ t.description.data)
    (hjunk : parseInt junk = none ∨
      ∃ p, parseInt junk = some p ∧ parseInt p.2 = none) :
    FileHandler.loadTasks (some (String.mk ((ts.map serializeTask).flatten ++ junk))) = ts := by
  show loadLoopF (((ts.map serializeTask).flatten ++ junk).length + 1)
    ((ts.map serializeTask).flatten ++ junk) = ts
  rw [loadLoopF_saveString ts (fun t ht c hc hceq => hts t ht (hceq ▸ hc)) junk _
    (junk.length + 1) (by omega) (by omega)]
  have hstop : loadLoopF (junk.length + 1) junk = [] := by
    rcases hjunk with hn | ⟨p, hp, hn⟩
    · simp only [loadLoopF, hn]
    · obtain ⟨i, r1⟩ := p
      simp only [loadLoopF, hp, hn]
  rw [hstop, List.append_nil]

/-- Counterexample to C2 as stated: in `"1 0 a\n\n2 1 b\n"` the second line
is empty, so it fails to parse as `<int> <int> <text>`; the claim says the
load stops there and discards `"2 1 b"`, but the code skips the blank line
(whitespace is consumed by integer extraction) and loads both records. -/
theorem claim_C2_cex :
    FileHandler.loadTasks (some "1 0 a\n\n2 1 b\n") =
      [{ id := 1, description := "a", completed := false },
       { id := 2, description := "b", completed := true }]
    ∧ FileHandler.loadTasks (some "1 0 a\n\n2 1 b\n") ≠
      [{ id := 1, description := "a", completed := false }] := by
  decide

/-- Witness for C2: one good record followed by junk whose first token is
not an integer. -/
theorem claim_C2_witness :
    ((∀ t ∈ [({ id := 1, description := "a", completed := false } : Task)],
        '\n' ∉ t.description.data)
     ∧ parseInt ("x oops".data) = none)
    ∧ FileHandler.loadTasks (some (String.mk
        (([({ id := 1, description := "a", completed := false } : Task)].map
          serializeTask).flatten ++ "x oops".data))) =
      [{ id := 1, description := "a", completed := false }] :=
  ⟨⟨by decide, by decide⟩, claim_C2 _ _ (by decide) (Or.inl (by decide))⟩

/-- Claim C3: constructing the store from an unopenable (missing) file is
not an error; the store starts empty with `nextId = 1`. -/
theorem claim_C3 : ChecklistManager.load none = { tasks := [], nextId := 1 } := rfl

/-! Facts about the fold computing `getNextId`. -/

lemma foldl_max_le (ts : List Task) : ∀ (a : Int),
    a ≤ ts.foldl (fun m t => max m t.id) a := by
  induction ts with
  | nil => intro a; exact le_refl a
  | cons t ts ih =>
    intro a
    exact le_trans (le_max_left a t.id) (ih (max a t.id))

lemma foldl_max_mem (ts : List Task) : ∀ (a : Int) (t : Task), t ∈ ts →
    t.id ≤ ts.foldl (fun m t => max m t.id) a := by
  induction ts with
  | nil => intro a t ht; exact absurd ht (List.not_mem_nil t)
  | cons u ts ih =>
    intro a t ht
    rcases List.mem_cons.mp ht with rfl | hmem
    · exact le_trans (le_max_right a t.id) (foldl_max_le ts (max a t.id))
    · exact ih (max a u.id) t hmem

lemma foldl_max_attained (ts : List Task) : ∀ (a : Int),
    ts.foldl (fun m t => max m t.id) a = a ∨
      ∃ t ∈ ts, ts.foldl (fun m t => max m t.id) a = t.id := by
  induction ts with
  | nil => intro a; exact Or.inl rfl
  | cons u ts ih =>
    intro a
    rcases ih (max a u.id) with heq | ⟨t, ht, heq⟩
    · rcases max_choice a u.id with hm | hm
      · exact Or.inl (by rw [List.foldl_cons, heq, hm])
      · exact Or.inr ⟨u, by simp, by rw [List.foldl_cons, heq, hm]⟩
    · exact Or.inr ⟨t, by simp [ht], by rw [List.foldl_cons, heq]⟩

/-- Claim C4, amended: after construction `nextId` is strictly above every
loaded id, is 1 for an empty load, is 1 when every loaded id is negative,
and otherwise (some loaded id is nonnegative — in particular for the
positive ids the data model prescribes) equals the maximum loaded id plus
one; loading ids 3, 7, 1 and adding a task assigns id 8. The unamended
claim fails only on sequences whose ids are all negative, where the code's
0-seeded fold yields 1 rather than max + 1. -/
theorem claim_C4 (file : Option String) :
    ((ChecklistManager.load file).tasks = [] → (ChecklistManager.load file).nextId = 1)
    ∧ (∀ t ∈ (ChecklistManager.load file).tasks,
        t.id < (ChecklistManager.load file).nextId)
    ∧ ((∀ t ∈ (ChecklistManager.load file).tasks, t.id < 0) →
        (ChecklistManager.load file).nextId = 1)
    ∧ ((∃ t ∈ (ChecklistManager.load file).tasks, 0 ≤ t.id) →
        ∃ t ∈ (ChecklistManager.load file).tasks,
          (ChecklistManager.load file).nextId = t.id + 1)
    ∧ ((ChecklistManager.load (some "3 0 a\n7 0 b\n1 0 c\n")).addTask "d").1.tasks.getLast? =
        some { id := 8, description := "d", completed := false } := by
  simp only [ChecklistManager.load, getNextId]
  refine ⟨?_, ?_, ?_, ?_, by decide⟩
  · intro h
    rw [h]
    rfl
  · intro t ht
    have := foldl_max_mem (FileHandler.loadTasks file) 0 t ht
    omega
  · intro hneg
    rcases foldl_max_attained (FileHandler.loadTasks file) 0 with heq | ⟨t, ht, heq⟩
    · rw [heq]
      rfl
    · have h0 := foldl_max_le (FileHandler.loadTasks file) 0
      have := hneg t ht
      omega
  · rintro ⟨t0, ht0, h0⟩
    rcases foldl_max_attained (FileHandler.loadTasks file) 0 with heq | ⟨t, ht, heq⟩
    · refine ⟨t0, ht0, ?_⟩
      have := foldl_max_mem (FileHandler.loadTasks file) 0 t0 ht0
      omega
    · exact ⟨t, ht, by rw [heq]⟩

/-- Counterexample to C4 as stated: the file `"-5 0 x\n"` loads one task
with id `-5`; the claim forces `nextId = -5 + 1 = -4`, but the code's
0-seeded max yields `nextId = 1`. -/
theorem claim_C4_cex :
    (ChecklistManager.load (some "-5 0 x\n")).tasks =
      [{ id := -5, description := "x", completed := false }]
    ∧ (ChecklistManager.load (some "-5 0 x\n")).nextId = 1
    ∧ (1 : Int) ≠ -5 + 1 := by
  decide

/-! `addTask` iterated from an arbitrary store state. -/

lemma addAll_spec : ∀ (ds : List String) (m : ChecklistManager),
    addAll m ds =
      { tasks := m.tasks ++ tasksFrom m.nextId ds,
        nextId := m.nextId + ds.length } := by
  intro ds
  induction ds with
  | nil => intro m; simp [addAll, tasksFrom]
  | cons d ds ih =>
    intro m
    show addAll (m.addTask d).1 ds = _
    rw [ih]
    simp only [ChecklistManager.addTask, tasksFrom, List.append_assoc,
      List.singleton_append, List.length_cons, ChecklistManager.mk.injEq,
      true_and, and_true]
    push_cast
    ring

/-- Claim C5: starting from the empty store, N `addTask` calls append N
tasks with ids 1..N in call order, each created not completed; `addTask`
always succeeds and reports success. -/
theorem claim_C5 (ds : List String) :
    (addAll (ChecklistManager.load none) ds).tasks = tasksFrom 1 ds
    ∧ (addAll (ChecklistManager.load none) ds).nextId = 1 + ds.length
    ∧ (∀ (m : ChecklistManager) (d : String),
        (m.addTask d).2 = "Task added successfully!") := by
  rw [addAll_spec]
  exact ⟨List.nil_append _, rfl, fun m d => rfl⟩

/-- Claim C6: removing or toggling an id that no task carries leaves the
store unchanged and reports "Task not found!" rather than raising. -/
theorem claim_C6 (m : ChecklistManager) (i : Int) (h : ∀ t ∈ m.tasks, t.id ≠ i) :
    m.removeTask i = (m, "Task not found!") ∧ m.toggleTask i = (m, "Task not found!") := by
  have hany : m.tasks.any (fun t => t.id == i) = false := by
    rw [List.any_eq_false]
    intro t ht
    simp [h t ht]
  constructor
  · unfold ChecklistManager.removeTask
    rw [hany]
    simp
  · unfold ChecklistManager.toggleTask
    rw [hany]
    simp

/-- Witness for C6 on a store holding only id 1, probed with id 5. -/
theorem claim_C6_witness :
    (∀ t ∈ ((⟨[⟨1, "a", false⟩], 2⟩ : ChecklistManager)).tasks, t.id ≠ 5)
    ∧ (⟨[⟨1, "a", false⟩], 2⟩ : ChecklistManager).removeTask 5 =
      ((⟨[⟨1, "a", false⟩], 2⟩ : ChecklistManager), "Task not found!")
    ∧ (⟨[⟨1, "a", false⟩], 2⟩ : ChecklistManager).toggleTask 5 =
      ((⟨[⟨1, "a", false⟩], 2⟩ : ChecklistManager), "Task not found!") :=
  ⟨by decide, (claim_C6 _ 5 (by decide)).1, (claim_C6 _ 5 (by decide)).2⟩

/-! Toggling: the first matching task, and only it, changes; twice undoes. -/

lemma any_toggleFirst (i : Int) (ts : List Task) :
    (toggleFirst i ts).any (fun t => t.id == i) = ts.any (fun t => t.id == i) := by
  induction ts with
  | nil => rfl
  | cons t ts ih =>
    rw [toggleFirst]
    split
    · rename_i h
      simp only [List.any_cons, Task.toggleComplete]
    · simp only [List.any_cons, ih]

lemma toggleFirst_toggleFirst (i : Int) (ts : List Task) :
    toggleFirst i (toggleFirst i ts) = ts := by
  induction ts with
  | nil => rfl
  | cons t ts ih =>
    by_cases h : (t.id == i) = true
    · obtain ⟨a, b, c⟩ := t
      simp [toggleFirst, Task.toggleComplete, h, Bool.not_not]
    · rw [toggleFirst, if_neg h, toggleFirst, if_neg h, ih]

/-- Claim C7: for an id present in the sequence, toggling it twice returns
the store — in particular that task's completion flag — to its prior state. -/
theorem claim_C7 (m : ChecklistManager) (i : Int) (h : ∃ t ∈ m.tasks, t.id = i) :
    ((m.toggleTask i).1.toggleTask i).1 = m := by
  have hany : m.tasks.any (fun t => t.id == i) = true := by
    obtain ⟨t, ht, hid⟩ := h
    exact List.any_eq_true.mpr ⟨t, ht, by simp [hid]⟩
  unfold ChecklistManager.toggleTask
  rw [hany]
  simp only [if_true, any_toggleFirst, hany, toggleFirst_toggleFirst]

/-- Witness for C7 on a one-task store. -/
theorem claim_C7_witness :
    (∃ t ∈ ((⟨[⟨1, "a", false⟩], 2⟩ : ChecklistManager)).tasks, t.id = 1)
    ∧ (((⟨[⟨1, "a", false⟩], 2⟩ : ChecklistManager).toggleTask 1).1.toggleTask 1).1 =
      (⟨[⟨1, "a", false⟩], 2⟩ : ChecklistManager) :=
  ⟨by decide, claim_C7 _ 1 (by decide)⟩

lemma toggleFirst_decomp (i : Int) : ∀ (ts : List Task), (∃ t ∈ ts, t.id = i) →
    ∃ pre t post, ts = pre ++ t :: post ∧ (∀ u ∈ pre, u.id ≠ i) ∧ t.id = i ∧
      toggleFirst i ts =
        pre ++ { id := t.id, description := t.description, completed := !t.completed } :: post := by
  intro ts
  induction ts with
  | nil => rintro ⟨t, ht, _⟩; exact absurd ht (List.not_mem_nil t)
  | cons u ts ih =>
    intro h
    by_cases hu : u.id = i
    · refine ⟨[], u, ts, rfl, by simp, hu, ?_⟩
      rw [toggleFirst, if_pos (by simp [hu])]
      rfl
    · have h' : ∃ t ∈ ts, t.id = i := by
        obtain ⟨t, ht, hid⟩ := h
        rcases List.mem_cons.mp ht with rfl | hmem
        · exact absurd hid hu
        · exact ⟨t, hmem, hid⟩
      obtain ⟨pre, t, post, heq, hpre, hid, htog⟩ := ih h'
      refine ⟨u :: pre, t, post, by rw [heq]; rfl, ?_, hid, ?_⟩
      · intro v hv
        rcases List.mem_cons.mp hv with rfl | hmem
        · exact hu
        · exact hpre v hmem
      · rw [toggleFirst, if_neg (by simp [hu]), htog]
        rfl

/-- Claim C10 (frame property of toggle): for a present id, the sequence
splits as `pre ++ t :: post` with `t` the first match; toggling replaces
only `t`'s completion flag — its id and description, every task in `pre`
and `post`, the length, the order and `nextId` are unchanged. -/
theorem claim_C10 (m : ChecklistManager) (i : Int) (h : ∃ t ∈ m.tasks, t.id = i) :
    ∃ pre t post,
      m.tasks = pre ++ t :: post
      ∧ (∀ u ∈ pre, u.id ≠ i)
      ∧ t.id = i
      ∧ (m.toggleTask i).1.tasks =
          pre ++ { id := t.id, description := t.description, completed := !t.completed } :: post
      ∧ (m.toggleTask i).1.nextId = m.nextId := by
  have hany : m.tasks.any (fun t => t.id == i) = true := by
    obtain ⟨t, ht, hid⟩ := h
    exact List.any_eq_true.mpr ⟨t, ht, by simp [hid]⟩
  obtain ⟨pre, t, post, heq, hpre, hid, htog⟩ := toggleFirst_decomp i m.tasks h
  refine ⟨pre, t, post, heq, hpre, hid, ?_, ?_⟩
  · unfold ChecklistManager.toggleTask
    rw [hany]
    simpa using htog
  · unfold ChecklistManager.toggleTask
    rw [hany]
    rfl

/-- Witness for C10 on a two-task store, toggling the second task. -/
theorem claim_C10_witness :
    (∃ t ∈ ((⟨[⟨1, "a", false⟩, ⟨2, "b", true⟩], 3⟩ : ChecklistManager)).tasks, t.id = 2)
    ∧ ∃ pre t post,
      (⟨[⟨1, "a", false⟩, ⟨2, "b", true⟩], 3⟩ : ChecklistManager).tasks = pre ++ t :: post
      ∧ (∀ u ∈ pre, u.id ≠ 2)
      ∧ t.id = 2
      ∧ ((⟨[⟨1, "a", false⟩, ⟨2, "b", true⟩], 3⟩ : ChecklistManager).toggleTask 2).1.tasks =
          pre ++ { id := t.id, description := t.description, completed := !t.completed } :: post
      ∧ ((⟨[⟨1, "a", false⟩, ⟨2, "b", true⟩], 3⟩ : ChecklistManager).toggleTask 2).1.nextId =
          (⟨[⟨1, "a", false⟩, ⟨2, "b", true⟩], 3⟩ : ChecklistManager).nextId :=
  ⟨by decide, claim_C10 _ 2 (by decide)⟩

/-- Claim C8: `saveTasks` fails (with the thrown error) exactly when the
file cannot be opened for writing, and the error reaches the caller as the
`Except.error` result; on the shutdown flush the destructor catches it and
reports it on the error stream (second component) instead of crashing —
the flush still returns, writing nothing. -/
theorem claim_C8 (canOpen : Bool) (m : ChecklistManager) :
    ((∃ e, FileHandler.saveTasks canOpen m.tasks = Except.error e) ↔ canOpen = false)
    ∧ (FileHandler.saveTasks canOpen m.tasks = Except.ok (saveString m.tasks) ↔ canOpen = true)
    ∧ m.shutdownFlush false = (none, some "Error saving tasks: Unable to open file for writing")
    ∧ m.shutdownFlush true = (some (saveString m.tasks), none) := by
  refine ⟨?_, ?_, rfl, rfl⟩ <;>
    cases canOpen <;> simp [FileHandler.saveTasks]

/-- Claim C9, amended: the embedded `main` exits 0 on every run, including
when the shutdown flush fails — the destructor catches the save error and
reports it on the error stream, so an unwritable file path does NOT surface
as exit code 1; nothing in the modelled program reaches `main`'s
exception-to-exit-code-1 path. -/
theorem claim_C9 (file : Option String) (canOpen : Bool) (cmds : List Cmd) :
    (mainModel file canOpen cmds).1 = 0
    ∧ ((mainModel file canOpen cmds).2 = none ↔ canOpen = true) := by
  cases canOpen <;>
    simp [mainModel, ChecklistManager.shutdownFlush, FileHandler.saveTasks]

/-- Counterexample to C9 as stated: with the file unwritable at shutdown the
claim requires exit code 1, but the run exits 0 (the save failure is only
reported on the error stream). -/
theorem claim_C9_cex :
    (mainModel (some "1 0 a\n") false [Cmd.list]).1 = 0
    ∧ (mainModel (some "1 0 a\n") false [Cmd.list]).2 =
        some "Error saving tasks: Unable to open file for writing"
    ∧ (mainModel (some "1 0 a\n") false [Cmd.list]).1 ≠ 1 := by
  decide

end Checklist
